import Mathlib

/-!
# Verification of the transaction aggregation and derived-statistics model

Shallow embedding of the aggregation, CSV-export, form-sanitization and
upload-gate code of the personal-finance application
(src/App.tsx, src/components/dashboard.tsx, src/components/finance-charts.tsx,
src/components/transaction-list.tsx, src/unnamed/part_001 = the transaction form).

JavaScript numbers are modelled as exact rationals (ℚ); strings as Lean
`String`/`List Char`.  JS objects used as string-keyed accumulators are
modelled as association lists that preserve first-insertion order of keys,
which is the enumeration order of `Object.entries`/`Object.values`.
`Array.prototype.sort` with a *consistent* comparator is required by
ECMAScript to be a stable sort, so it is embedded as `List.insertionSort`
(Mathlib's insertion sort is stable for a total preorder).
-/

namespace SecureFinance

/-- Transaction kind, from `type: 'income' | 'expense'` in src/App.tsx. -/
inductive TxType where
  | income
  | expense
deriving DecidableEq, Repr

/-- Attachment file metadata (`File`: name, size in bytes, MIME type). -/
structure FileDesc where
  name : String
  size : ℕ
  type : String
deriving DecidableEq, Repr

/-- The `Transaction` record type from src/App.tsx (lines 22-32).
`amount: number` is modelled as an exact rational. -/
structure Transaction where
  id : String
  type : TxType
  amount : ℚ
  description : String
  category : String
  date : String
  tags : List String
  attachment : Option FileDesc := none
deriving DecidableEq, Repr

/-! ## Dashboard totals (src/components/dashboard.tsx, lines 16-25) -/

/-- `transactions.filter(t => t.type === 'income').reduce((sum, t) => sum + t.amount, 0)`
(dashboard.tsx lines 17-19). -/
def totalIncome (ts : List Transaction) : ℚ :=
  (ts.filter fun t => t.type == TxType.income).foldl (fun sum t => sum + t.amount) 0

/-- `transactions.filter(t => t.type === 'expense').reduce((sum, t) => sum + t.amount, 0)`
(dashboard.tsx lines 21-23). -/
def totalExpenses (ts : List Transaction) : ℚ :=
  (ts.filter fun t => t.type == TxType.expense).foldl (fun sum t => sum + t.amount) 0

/-- `const balance = totalIncome - totalExpenses` (dashboard.tsx line 25). -/
def balance (ts : List Transaction) : ℚ :=
  totalIncome ts - totalExpenses ts

/-- A JS `reduce` that adds `f t` onto an accumulator is the sum of the mapped list. -/
theorem foldl_add_eq_sum (f : Transaction → ℚ) (l : List Transaction) (init : ℚ) :
    l.foldl (fun sum t => sum + f t) init = init + (l.map f).sum := by
  induction l generalizing init with
  | nil => simp
  | cons t l ih => simp [List.foldl_cons, ih, add_assoc]

/-! ## Expenses grouped by category
(dashboard.tsx lines 28-33, finance-charts.tsx lines 41-46; identical code) -/

/-- `acc[t.category] = (acc[t.category] || 0) + t.amount` on a JS object:
if the key is present its value is updated in place, otherwise the key is
appended (JS objects enumerate string keys in insertion order). -/
def upsert (acc : List (String × ℚ)) (cat : String) (amt : ℚ) : List (String × ℚ) :=
  match acc with
  | [] => [(cat, amt)]
  | (c, v) :: rest =>
      if c = cat then (c, v + amt) :: rest else (c, v) :: upsert rest cat amt

/-- `transactions.filter(t => t.type === 'expense').reduce((acc, t) => { acc[t.category] =
(acc[t.category] || 0) + t.amount; return acc }, {})`, with `Object.entries` order. -/
def expensesByCategory (ts : List Transaction) : List (String × ℚ) :=
  (ts.filter fun t => t.type == TxType.expense).foldl
    (fun acc t => upsert acc t.category t.amount) []

theorem mem_keys_upsert (acc : List (String × ℚ)) (cat c : String) (amt : ℚ) :
    c ∈ (upsert acc cat amt).map Prod.fst ↔ c ∈ acc.map Prod.fst ∨ c = cat := by
  induction acc with
  | nil => simp [upsert]
  | cons p rest ih =>
      obtain ⟨c₀, v₀⟩ := p
      by_cases h : c₀ = cat
      · subst h; simp [upsert]; tauto
      · simp only [upsert, if_neg h, List.map_cons, List.mem_cons, ih]; tauto

theorem sum_values_upsert (acc : List (String × ℚ)) (cat : String) (amt : ℚ) :
    ((upsert acc cat amt).map Prod.snd).sum = (acc.map Prod.snd).sum + amt := by
  induction acc with
  | nil => simp [upsert]
  | cons p rest ih =>
      obtain ⟨c₀, v₀⟩ := p
      by_cases h : c₀ = cat
      · subst h; simp [upsert, add_assoc, add_comm]
      · simp [upsert, if_neg h, ih, add_assoc]

theorem nodup_keys_upsert (acc : List (String × ℚ)) (cat : String) (amt : ℚ)
    (h : (acc.map Prod.fst).Nodup) : ((upsert acc cat amt).map Prod.fst).Nodup := by
  induction acc with
  | nil => simp [upsert]
  | cons p rest ih =>
      obtain ⟨c₀, v₀⟩ := p
      simp only [List.map_cons, List.nodup_cons] at h
      by_cases hc : c₀ = cat
      · subst hc; simpa [upsert] using h
      · simp only [upsert, if_neg hc, List.map_cons, List.nodup_cons]
        refine ⟨?_, ih h.2⟩
        rw [mem_keys_upsert]
        rintro (hmem | rfl)
        · exact h.1 hmem
        · exact hc rfl

/-- Invariant transfer through the grouping fold. -/
theorem expensesFold_props (l : List Transaction) :
    ∀ acc : List (String × ℚ),
      (∀ c, c ∈ (l.foldl (fun acc t => upsert acc t.category t.amount) acc).map Prod.fst ↔
        c ∈ acc.map Prod.fst ∨ ∃ t ∈ l, t.category = c) ∧
      (((l.foldl (fun acc t => upsert acc t.category t.amount) acc).map Prod.snd).sum =
        (acc.map Prod.snd).sum + (l.map Transaction.amount).sum) ∧
      ((acc.map Prod.fst).Nodup →
        ((l.foldl (fun acc t => upsert acc t.category t.amount) acc).map Prod.fst).Nodup) := by
  induction l with
  | nil => intro acc; refine ⟨by simp, by simp, fun h => h⟩
  | cons t l ih =>
      intro acc
      obtain ⟨ihmem, ihsum, ihnodup⟩ := ih (upsert acc t.category t.amount)
      refine ⟨?_, ?_, ?_⟩
      · intro c
        simp only [List.foldl_cons, ihmem, mem_keys_upsert, List.mem_cons]
        constructor
        · rintro ((hmem | rfl) | ⟨u, hu, rfl⟩)
          · exact Or.inl hmem
          · exact Or.inr ⟨t, Or.inl rfl, rfl⟩
          · exact Or.inr ⟨u, Or.inr hu, rfl⟩
        · rintro (hmem | ⟨u, (rfl | hu), rfl⟩)
          · exact Or.inl (Or.inl hmem)
          · exact Or.inl (Or.inr rfl)
          · exact Or.inr ⟨u, hu, rfl⟩
      · simp only [List.foldl_cons, ihsum, sum_values_upsert, List.map_cons, List.sum_cons]
        ring
      · intro h
        exact ihnodup (nodup_keys_upsert _ _ _ h)

/-! ## Monthly evolution (src/components/finance-charts.tsx, lines 55-77) -/

/-- One bucket of the `monthlyData` accumulator: `{ month, income: 0, expense: 0 }`. -/
structure MonthBucket where
  month : String
  income : ℚ
  expense : ℚ
deriving DecidableEq, Repr

/-- One entry of `monthlyEvolution` after `balance: item.income - item.expense` is added. -/
structure MonthPoint where
  month : String
  income : ℚ
  expense : ℚ
  balance : ℚ
deriving DecidableEq, Repr

/-- `new Date(t.date).toISOString().slice(0, 7)`: for a canonical ISO calendar
date string `YYYY-MM-DD` this is its first seven characters `YYYY-MM`. -/
def monthKey (t : Transaction) : String :=
  String.mk (t.date.data.take 7)

/-- `if (t.type === 'income') acc[month].income += t.amount else acc[month].expense += t.amount`. -/
def bump (t : Transaction) (b : MonthBucket) : MonthBucket :=
  if t.type == TxType.income then { b with income := b.income + t.amount }
  else { b with expense := b.expense + t.amount }

/-- One step of the `monthlyData` reduce: create the `{month, 0, 0}` bucket if
absent (appended, in JS object insertion order), then add the amount. -/
def addToMonth (acc : List MonthBucket) (t : Transaction) : List MonthBucket :=
  match acc with
  | [] => [bump t ⟨monthKey t, 0, 0⟩]
  | b :: rest =>
      if b.month = monthKey t then bump t b :: rest else b :: addToMonth rest t

/-- The `monthlyData` accumulator (finance-charts.tsx lines 55-66), with
`Object.values` enumeration in key-insertion order. -/
def monthlyData (ts : List Transaction) : List MonthBucket :=
  ts.foldl addToMonth []

/-- `Object.values(monthlyData).sort((a, b) => a.month.localeCompare(b.month))`:
a stable sort by the month key (`localeCompare` on `YYYY-MM` keys agrees with
code-point order). -/
def sortByMonth (l : List MonthBucket) : List MonthBucket :=
  l.insertionSort (fun a b => a.month ≤ b.month)

/-- `monthlyEvolution` (finance-charts.tsx lines 68-77): sort the buckets by
month and add `balance = income - expense`. -/
def monthlyEvolution (ts : List Transaction) : List MonthPoint :=
  (sortByMonth (monthlyData ts)).map
    (fun b => ⟨b.month, b.income, b.expense, b.income - b.expense⟩)

theorem month_bump (t : Transaction) (b : MonthBucket) : (bump t b).month = b.month := by
  unfold bump; split <;> rfl

theorem addToMonth_nil (t : Transaction) : addToMonth [] t = [bump t ⟨monthKey t, 0, 0⟩] :=
  rfl

theorem addToMonth_cons_pos (b : MonthBucket) (rest : List MonthBucket) (t : Transaction)
    (h : b.month = monthKey t) : addToMonth (b :: rest) t = bump t b :: rest := by
  conv_lhs => rw [addToMonth.eq_def]
  simp only [if_pos h]

theorem addToMonth_cons_neg (b : MonthBucket) (rest : List MonthBucket) (t : Transaction)
    (h : ¬ b.month = monthKey t) : addToMonth (b :: rest) t = b :: addToMonth rest t := by
  conv_lhs => rw [addToMonth.eq_def]
  simp only [if_neg h]

theorem mem_months_addToMonth (acc : List MonthBucket) (t : Transaction) (m : String) :
    m ∈ (addToMonth acc t).map MonthBucket.month ↔
      m ∈ acc.map MonthBucket.month ∨ m = monthKey t := by
  induction acc with
  | nil => simp [addToMonth_nil, month_bump]
  | cons b rest ih =>
      by_cases h : b.month = monthKey t
      · rw [addToMonth_cons_pos b rest t h]
        simp only [List.map_cons, List.mem_cons, month_bump, h]
        tauto
      · rw [addToMonth_cons_neg b rest t h]
        simp only [List.map_cons, List.mem_cons, ih]
        tauto

theorem nodup_months_addToMonth (acc : List MonthBucket) (t : Transaction)
    (h : (acc.map MonthBucket.month).Nodup) :
    ((addToMonth acc t).map MonthBucket.month).Nodup := by
  induction acc with
  | nil => simp [addToMonth_nil]
  | cons b rest ih =>
      simp only [List.map_cons, List.nodup_cons] at h
      by_cases hm : b.month = monthKey t
      · rw [addToMonth_cons_pos b rest t hm]
        simp only [List.map_cons, List.nodup_cons, month_bump]
        exact h
      · rw [addToMonth_cons_neg b rest t hm]
        simp only [List.map_cons, List.nodup_cons]
        refine ⟨?_, ih h.2⟩
        rw [mem_months_addToMonth]
        rintro (hmem | heq)
        · exact h.1 hmem
        · exact hm heq

theorem nodup_months_monthlyData (ts : List Transaction) :
    ((monthlyData ts).map MonthBucket.month).Nodup := by
  suffices h : ∀ acc : List MonthBucket, (acc.map MonthBucket.month).Nodup →
      ((ts.foldl addToMonth acc).map MonthBucket.month).Nodup by
    exact h [] (by simp)
  induction ts with
  | nil => intro acc h; exact h
  | cons t ts ih =>
      intro acc h
      exact ih _ (nodup_months_addToMonth acc t h)

theorem nodup_keys_expensesByCategory (ts : List Transaction) :
    ((expensesByCategory ts).map Prod.fst).Nodup :=
  ((expensesFold_props (ts.filter fun t => t.type == TxType.expense) []).2.2) (by simp)

theorem mem_keys_expensesByCategory (ts : List Transaction) (c : String) :
    c ∈ (expensesByCategory ts).map Prod.fst ↔
      ∃ t ∈ ts, t.type = TxType.expense ∧ t.category = c := by
  have h := ((expensesFold_props (ts.filter fun t => t.type == TxType.expense) []).1) c
  rw [expensesByCategory, h]
  simp only [List.map_nil, List.not_mem_nil, false_or, List.mem_filter, beq_iff_eq]
  constructor
  · rintro ⟨t, ⟨ht, hty⟩, hc⟩
    exact ⟨t, ht, hty, hc⟩
  · rintro ⟨t, ht, hty, hc⟩
    exact ⟨t, ⟨ht, hty⟩, hc⟩

theorem sum_values_expensesByCategory (ts : List Transaction) :
    ((expensesByCategory ts).map Prod.snd).sum = totalExpenses ts := by
  have h := (expensesFold_props (ts.filter fun t => t.type == TxType.expense) []).2.1
  rw [expensesByCategory, h, totalExpenses, foldl_add_eq_sum]
  simp

/-- C1: `totals(transactions)` returns income equal to the sum of amounts of
income-kind transactions, expense equal to the sum of amounts of expense-kind
transactions, and balance equal to income minus expense, exactly; for the
empty sequence all three are zero. -/
theorem C1_totals_correct (ts : List Transaction) :
    totalIncome ts = ((ts.filter fun t => t.type == TxType.income).map Transaction.amount).sum
    ∧ totalExpenses ts
        = ((ts.filter fun t => t.type == TxType.expense).map Transaction.amount).sum
    ∧ balance ts = totalIncome ts - totalExpenses ts
    ∧ totalIncome [] = 0 ∧ totalExpenses [] = 0 ∧ balance [] = 0 := by
  refine ⟨?_, ?_, rfl, by simp [totalIncome], by simp [totalExpenses],
    by simp [balance, totalIncome, totalExpenses]⟩
  · rw [totalIncome, foldl_add_eq_sum]; simp
  · rw [totalExpenses, foldl_add_eq_sum]; simp

/-- C2: `expenseByCategory(transactions)` has a key exactly for the categories
with at least one expense-kind transaction (so no zero-valued entries for other
categories, and no duplicate keys), and the sum of its values equals
`totals(transactions).expense`. -/
theorem C2_expenseByCategory_correct (ts : List Transaction) :
    (∀ c : String, c ∈ (expensesByCategory ts).map Prod.fst ↔
        ∃ t ∈ ts, t.type = TxType.expense ∧ t.category = c)
    ∧ ((expensesByCategory ts).map Prod.snd).sum = totalExpenses ts
    ∧ ((expensesByCategory ts).map Prod.fst).Nodup :=
  ⟨mem_keys_expensesByCategory ts, sum_values_expensesByCategory ts,
    nodup_keys_expensesByCategory ts⟩

/-- C3: `monthlySeries(transactions)` produces buckets whose year-month keys
are strictly ascending (in particular with no duplicate keys), and each
bucket's balance equals its income minus its expense. -/
theorem C3_monthlySeries_correct (ts : List Transaction) :
    ((monthlyEvolution ts).map MonthPoint.month).Pairwise (· < ·)
    ∧ ((monthlyEvolution ts).map MonthPoint.month).Nodup
    ∧ ∀ p ∈ monthlyEvolution ts, p.balance = p.income - p.expense := by
  have hmonths : (monthlyEvolution ts).map MonthPoint.month
      = (sortByMonth (monthlyData ts)).map MonthBucket.month := by
    rw [monthlyEvolution, List.map_map]; rfl
  haveI htot : IsTotal MonthBucket (fun a b => a.month ≤ b.month) :=
    ⟨fun a b => le_total a.month b.month⟩
  haveI htrans : IsTrans MonthBucket (fun a b => a.month ≤ b.month) :=
    ⟨fun _ _ _ hab hbc => le_trans hab hbc⟩
  have hsorted : (sortByMonth (monthlyData ts)).Pairwise (fun a b => a.month ≤ b.month) :=
    List.sorted_insertionSort _ _
  have hperm : List.Perm (sortByMonth (monthlyData ts)) (monthlyData ts) :=
    List.perm_insertionSort _ _
  have hnodup : ((sortByMonth (monthlyData ts)).map MonthBucket.month).Nodup :=
    (hperm.map MonthBucket.month).nodup_iff.mpr (nodup_months_monthlyData ts)
  refine ⟨?_, ?_, ?_⟩
  · rw [hmonths]
    have hle : ((sortByMonth (monthlyData ts)).map MonthBucket.month).Pairwise (· ≤ ·) :=
      hsorted.map MonthBucket.month (fun _ _ h => h)
    have hne : ((sortByMonth (monthlyData ts)).map MonthBucket.month).Pairwise (· ≠ ·) :=
      hnodup
    exact (hle.and hne).imp fun h => lt_of_le_of_ne h.1 h.2
  · rw [hmonths]; exact hnodup
  · intro p hp
    rw [monthlyEvolution, List.mem_map] at hp
    obtain ⟨b, _, rfl⟩ := hp
    rfl

/-- A single concrete transaction for the `C3_monthlySeries_correct` witness. -/
def c3w : Transaction :=
  { id := "1", type := TxType.income, amount := 5, description := "a", category := "Outros",
    date := "2025-01-03", tags := [] }

/-- Witness for `C3_monthlySeries_correct` at a concrete input. -/
theorem C3_monthlySeries_witness :
    ((monthlyEvolution [c3w]).map MonthPoint.month).Pairwise (· < ·)
    ∧ MonthPoint.balance ⟨"2025-01", 5, 0, 5⟩
        = MonthPoint.income ⟨"2025-01", 5, 0, 5⟩ - MonthPoint.expense ⟨"2025-01", 5, 0, 5⟩ := by
  have hcomp : monthlyEvolution [c3w] = [⟨"2025-01", 5, 0, 5⟩] := by
    simp only [monthlyEvolution, monthlyData, List.foldl_cons, List.foldl_nil, addToMonth_nil,
      bump, sortByMonth, List.insertionSort, List.map_cons, List.map_nil]
    norm_num [c3w]
    decide
  exact ⟨(C3_monthlySeries_correct [c3w]).1,
    (C3_monthlySeries_correct [c3w]).2.2 _ (by rw [hcomp]; simp)⟩

/-! ## Top expense categories (src/components/finance-charts.tsx, lines 94-101)

`Object.entries(expensesByCategory).sort(([,a], [,b]) => b - a).slice(0, 6)`.
The comparator `b - a` is a consistent comparison function, so ECMAScript
requires a stable sort: entry `x` stays before `y` iff `cmp(x,y) = y.2 - x.2 ≤ 0`,
i.e. `y.2 ≤ x.2`.  The source truncates to the fixed length 6; the spec's
`topCategories(t, n)` generalises the truncation length to a parameter `n`. -/

/-- Stable descending sort of `(category, sum)` entries by sum. -/
def sortEntriesDesc (l : List (String × ℚ)) : List (String × ℚ) :=
  l.insertionSort (fun x y => y.2 ≤ x.2)

/-- `topCategories`: the expense-by-category entries sorted descending by sum,
truncated to the first `n` (the source instantiates `n = 6`). -/
def topCategories (ts : List Transaction) (n : ℕ) : List (String × ℚ) :=
  (sortEntriesDesc (expensesByCategory ts)).take n

/-- The order the claim asserts: strictly descending by sum with ties broken
by category name ascending. -/
def claimC4Order (x y : String × ℚ) : Prop :=
  y.2 < x.2 ∨ (x.2 = y.2 ∧ x.1 < y.1)

instance : DecidableRel claimC4Order := fun x y => by
  unfold claimC4Order; infer_instance

/-- Filtering by an exact sum commutes with `orderedInsert` for the descending
order: the sort used by `topCategories` never reorders entries of equal sum. -/
theorem filter_key_orderedInsert (q : ℚ) (a : String × ℚ) (m : List (String × ℚ)) :
    (List.orderedInsert (fun x y => y.2 ≤ x.2) a m).filter (fun e => decide (e.2 = q)) =
      if a.2 = q then a :: m.filter (fun e => decide (e.2 = q))
      else m.filter (fun e => decide (e.2 = q)) := by
  induction m with
  | nil =>
      by_cases ha : a.2 = q <;> simp [List.orderedInsert, List.filter_cons, ha]
  | cons b m ih =>
      rw [List.orderedInsert]
      by_cases hr : b.2 ≤ a.2
      · rw [if_pos hr]
        by_cases ha : a.2 = q <;> simp [List.filter_cons, ha]
      · rw [if_neg hr]
        by_cases hb : b.2 = q
        · have ha : ¬ a.2 = q := by
            intro h; exact hr (by rw [hb, h])
          simp [List.filter_cons, hb, ih, ha]
        · by_cases ha : a.2 = q <;> simp [List.filter_cons, hb, ih, ha]

/-- Stability of the descending entry sort: entries of any fixed sum keep
their original relative order. -/
theorem filter_key_sortEntriesDesc (q : ℚ) (l : List (String × ℚ)) :
    (sortEntriesDesc l).filter (fun e => decide (e.2 = q)) =
      l.filter (fun e => decide (e.2 = q)) := by
  induction l with
  | nil => rfl
  | cons a l ih =>
      rw [sortEntriesDesc, List.insertionSort]
      rw [show List.insertionSort (fun x y => y.2 ≤ x.2) l = sortEntriesDesc l from rfl]
      rw [filter_key_orderedInsert, ih]
      by_cases ha : a.2 = q <;> simp [List.filter_cons, ha]

theorem expensesByCategory_length_eq_card (ts : List Transaction) :
    (expensesByCategory ts).length
      = ((ts.filter fun t => t.type == TxType.expense).map Transaction.category).toFinset.card := by
  have h1 : (expensesByCategory ts).length = ((expensesByCategory ts).map Prod.fst).length := by
    simp
  rw [h1, ← List.toFinset_card_of_nodup (nodup_keys_expensesByCategory ts)]
  congr 1
  apply Finset.ext
  intro c
  rw [List.mem_toFinset, List.mem_toFinset, mem_keys_expensesByCategory]
  simp only [List.mem_map, List.mem_filter, beq_iff_eq]
  tauto

/-- A two-transaction input whose two expense categories have equal sums but
appear in non-alphabetical order. -/
def cexTieTs : List Transaction :=
  [{ id := "1", type := TxType.expense, amount := 10, description := "b", category := "B",
     date := "2025-01-01", tags := [] },
   { id := "2", type := TxType.expense, amount := 10, description := "a", category := "A",
     date := "2025-01-02", tags := [] }]

/-- C4, counterexample: on `cexTieTs` the code's `topCategories` keeps the
equal-sum categories in first-appearance order `[B, A]`, which violates the
claimed name-ascending tie-break. -/
theorem C4_counterexample :
    topCategories cexTieTs 6 = [("B", 10), ("A", 10)]
    ∧ ¬ (topCategories cexTieTs 6).Pairwise claimC4Order := by
  constructor
  · decide
  · intro h
    have h2 : topCategories cexTieTs 6 = [("B", 10), ("A", 10)] := by decide
    rw [h2, List.pairwise_cons] at h
    have := h.1 ("A", 10) (by simp)
    rcases this with hlt | ⟨_, hname⟩
    · exact absurd hlt (by norm_num)
    · exact absurd hname (by rw [String.lt_iff_toList_lt]; decide)

/-- C4, amended: `topCategories(transactions, n)` is sorted descending (not
strictly) by per-category expense sum; ties between categories of equal sum
are kept in the order the categories first appear among the expense
transactions (the sort is stable), not sorted by name; its length equals
`min(n, number of distinct expense categories)`, and its categories are
distinct. -/
theorem C4_topCategories_amended (ts : List Transaction) (n : ℕ) :
    (topCategories ts n).length
      = min n ((ts.filter fun t => t.type == TxType.expense).map Transaction.category).toFinset.card
    ∧ (topCategories ts n).Pairwise (fun x y => y.2 ≤ x.2)
    ∧ (∀ q : ℚ, (sortEntriesDesc (expensesByCategory ts)).filter (fun e => decide (e.2 = q))
        = (expensesByCategory ts).filter (fun e => decide (e.2 = q)))
    ∧ ((topCategories ts n).map Prod.fst).Nodup := by
  haveI htot : IsTotal (String × ℚ) (fun x y => y.2 ≤ x.2) := ⟨fun a b => le_total b.2 a.2⟩
  haveI htrans : IsTrans (String × ℚ) (fun x y => y.2 ≤ x.2) :=
    ⟨fun _ _ _ hxy hyz => le_trans hyz hxy⟩
  have hperm : List.Perm (sortEntriesDesc (expensesByCategory ts)) (expensesByCategory ts) :=
    List.perm_insertionSort _ _
  refine ⟨?_, ?_, fun q => filter_key_sortEntriesDesc q _, ?_⟩
  · rw [topCategories, List.length_take, hperm.length_eq, expensesByCategory_length_eq_card]
  · exact (List.sorted_insertionSort _ _).sublist (List.take_sublist n _)
  · have hkeys : ((sortEntriesDesc (expensesByCategory ts)).map Prod.fst).Nodup :=
      (hperm.map Prod.fst).nodup_iff.mpr (nodup_keys_expensesByCategory ts)
    rw [topCategories, List.map_take]
    exact hkeys.sublist (List.take_sublist n _)

/-! ## Transaction list filtering and sorting
(src/components/transaction-list.tsx, lines 39-90) -/

/-- The `sortBy` values of the list view; `other` is the comparator's
`default:` branch. -/
inductive SortKey where
  | date
  | amount
  | description
  | category
  | other
deriving DecidableEq, Repr

/-- `sortOrder: 'asc' | 'desc'`. -/
inductive SortOrder where
  | asc
  | desc
deriving DecidableEq, Repr

/-- JS `.toLowerCase()` (ASCII-faithful). -/
def lowerStr (s : String) : String :=
  String.mk (s.data.map Char.toLower)

/-- JS `String.prototype.includes`: substring containment. -/
def strIncludes (hay sub : String) : Bool :=
  decide (sub.data <:+: hay.data)

/-- The `type` field as the string the UI filter compares against. -/
def typeStr : TxType → String
  | TxType.income => "income"
  | TxType.expense => "expense"

/-- The filter predicate of `filteredAndSortedTransactions`
(transaction-list.tsx lines 40-55): case-insensitive substring match on
description or any tag, equality on category and on type, with the string
`"all"` meaning no filter. -/
def txFilter (searchTerm filterCategory filterType : String) (t : Transaction) : Bool :=
  (strIncludes (lowerStr t.description) (lowerStr searchTerm)
    || t.tags.any fun tag => strIncludes (lowerStr tag) (lowerStr searchTerm))
  && (filterCategory == "all" || t.category == filterCategory)
  && (filterType == "all" || typeStr t.type == filterType)

/-- JS `<` on strings: lexicographic by UTF-16 code unit, embedded as the
lexicographic order on the character lists (identical on BMP strings). -/
def strLt (s t : String) : Bool :=
  decide (s.data < t.data)

/-- `aValue > bValue` for the chosen sort key: dates compare as ISO date
strings, amounts numerically, description/category case-folded. -/
def keyGT (k : SortKey) (a b : Transaction) : Bool :=
  match k with
  | SortKey.date => strLt b.date a.date
  | SortKey.amount => decide (b.amount < a.amount)
  | SortKey.description => strLt (lowerStr b.description) (lowerStr a.description)
  | SortKey.category => strLt (lowerStr b.category) (lowerStr a.category)
  | SortKey.other => false

/-- The comparator of transaction-list.tsx lines 58-87.  Note that except in
the `default:` branch it returns `1` or `-1` and **never `0`**:
`sortOrder === 'asc' ? (aValue > bValue ? 1 : -1) : (aValue < bValue ? 1 : -1)`. -/
def jsCompare (k : SortKey) (o : SortOrder) (a b : Transaction) : Int :=
  match k with
  | SortKey.other => 0
  | _ =>
    match o with
    | SortOrder.asc => if keyGT k a b then 1 else -1
    | SortOrder.desc => if keyGT k b a then 1 else -1

/-- V8's insertion placement for small arrays: the incoming element is placed
before the first already-placed element `y` with `cmp(x, y) < 0` (the binary
insertion of V8's TimSort coincides with this linear rule at the evaluated
input sizes). -/
def v8Insert (cmp : Transaction → Transaction → Int) (x : Transaction) :
    List Transaction → List Transaction
  | [] => [x]
  | y :: ys => if cmp x y < 0 then x :: y :: ys else y :: v8Insert cmp x ys

/-- `Array.prototype.sort` under V8 for a small array: elements are inserted
left to right. -/
def v8Sort (cmp : Transaction → Transaction → Int) (l : List Transaction) : List Transaction :=
  l.foldl (fun acc x => v8Insert cmp x acc) []

/-- `filteredAndSortedTransactions`: filter, then `filtered.sort(comparator)`
under the V8 placement model. -/
def filterAndSortV8 (searchTerm filterCategory filterType : String)
    (k : SortKey) (o : SortOrder) (ts : List Transaction) : List Transaction :=
  v8Sort (jsCompare k o) (ts.filter (txFilter searchTerm filterCategory filterType))

/-- Two transactions sharing the same date (equal sort keys for `sortBy = date`). -/
def c5t1 : Transaction :=
  { id := "1", type := TxType.income, amount := 1, description := "a", category := "Outros",
    date := "2025-01-01", tags := [] }

def c5t2 : Transaction :=
  { id := "2", type := TxType.income, amount := 2, description := "b", category := "Outros",
    date := "2025-01-01", tags := [] }

/-- C5, failing input: the comparator is not a consistent comparison function
(for two transactions with equal date keys it answers `-1` in both argument
orders, where a consistent comparator would have to answer `0`), so
ECMAScript leaves the sort order implementation-defined; under V8's
insertion placement, equal-key elements are reversed on every call, so
applying `filterAndSort` to its own output changes the sequence: it is not
idempotent. -/
theorem C5_comparator_inconsistent_not_idempotent :
    (jsCompare SortKey.date SortOrder.asc c5t1 c5t2 = -1
      ∧ jsCompare SortKey.date SortOrder.asc c5t2 c5t1 = -1)
    ∧ filterAndSortV8 "" "all" "all" SortKey.date SortOrder.asc [c5t1, c5t2] = [c5t2, c5t1]
    ∧ filterAndSortV8 "" "all" "all" SortKey.date SortOrder.asc
        (filterAndSortV8 "" "all" "all" SortKey.date SortOrder.asc [c5t1, c5t2])
      ≠ filterAndSortV8 "" "all" "all" SortKey.date SortOrder.asc [c5t1, c5t2] := by
  refine ⟨⟨rfl, rfl⟩, rfl, ?_⟩
  decide

/-! ## Dashboard mutation of the transaction collection
(src/components/dashboard.tsx, lines 36-38)

`const recentTransactions = transactions.sort((a, b) =>
new Date(b.date).getTime() - new Date(a.date).getTime()).slice(0, 5);`
`Array.prototype.sort` sorts **in place**: it reorders the `transactions`
array that was passed to the component as a prop.  The comparator is
consistent (it can return 0), so the result is the stable descending sort
by date. -/

/-- The comparator `new Date(b.date).getTime() - new Date(a.date).getTime()`
keeps `a` before `b` iff it is `≤ 0`, i.e. iff `b.date ≤ a.date`
(epoch order of canonical ISO dates = lexicographic order of the strings). -/
def recentLe (a b : Transaction) : Prop :=
  b.date.data ≤ a.date.data

instance : DecidableRel recentLe := fun a b => by
  unfold recentLe; infer_instance

/-- The contents of the `transactions` array after the dashboard's stable
in-place sort. -/
def dashboardRecentSort (ts : List Transaction) : List Transaction :=
  ts.insertionSort recentLe

/-- Computing the dashboard statistics returns `recentTransactions`
(first component) and leaves the transaction collection in the state given
by the second component — sorted, because `.sort()` mutated it in place. -/
def dashboardStatsEffect (ts : List Transaction) : List Transaction × List Transaction :=
  (dashboardRecentSort ts |>.take 5, dashboardRecentSort ts)

def c8t1 : Transaction :=
  { id := "1", type := TxType.income, amount := 1, description := "a", category := "Outros",
    date := "2025-01-01", tags := [] }

def c8t2 : Transaction :=
  { id := "2", type := TxType.expense, amount := 2, description := "b", category := "Outros",
    date := "2025-01-02", tags := [] }

/-- C8, failing input: computing the dashboard's derived statistics on the
collection `[c8t1, c8t2]` (dated 2025-01-01 then 2025-01-02) leaves the
collection reordered to `[c8t2, c8t1]` — the in-place `.sort()` call is a
side effect on the input, contradicting the claim that the collection is
left unchanged in its original order. -/
theorem C8_dashboard_mutates_input :
    (dashboardStatsEffect [c8t1, c8t2]).2 = [c8t2, c8t1]
    ∧ (dashboardStatsEffect [c8t1, c8t2]).2 ≠ [c8t1, c8t2] := by
  refine ⟨?_, ?_⟩ <;> decide

/-! ## CSV export (src/components/transaction-list.tsx, lines 130-148) -/

/-- The double-quote character. -/
def dq : Char := Char.ofNat 34

/-- The double-quote character as a one-character string. -/
def dqStr : String := String.mk [dq]

/-- `Array.prototype.join(sep)`. -/
def joinSep (sep : String) : List String → String
  | [] => ""
  | [x] => x
  | x :: y :: ys => x ++ sep ++ joinSep sep (y :: ys)

/-- `t.type === 'income' ? 'Receita' : 'Despesa'` (line 135). -/
def typeLabel : TxType → String
  | TxType.income => "Receita"
  | TxType.expense => "Despesa"

/-- `.replace('.', ',')` with a string pattern replaces only the **first**
occurrence (line 138). -/
def decimalCommaAux : List Char → List Char
  | [] => []
  | c :: cs => if c = '.' then ',' :: cs else c :: decimalCommaAux cs

/-- `t.amount.toString().replace('.', ',')` applied to an already-rendered
amount string. -/
def decimalComma (s : String) : String :=
  String.mk (decimalCommaAux s.data)

/-- The reverse replacement `,` → `.` (first occurrence), used to read the
amount field back. -/
def commaToDotAux : List Char → List Char
  | [] => []
  | c :: cs => if c = ',' then '.' :: cs else c :: commaToDotAux cs

def commaToDot (s : String) : String :=
  String.mk (commaToDotAux s.data)

/-- Wrapping a field in double quotes, as the template literals
`\x22${t.description}\x22` and `\x22${t.tags.join(chr59 chr32)}\x22` do
(lines 136 and 139). -/
def quoteField (s : String) : String :=
  dqStr ++ s ++ dqStr

/-- `Models Number.prototype.toString` restricted to amounts whose value is a
finite decimal fraction: for a double holding such a value JS prints the
shortest round-tripping decimal, which is the plain decimal expansion.
`fracDigits` finds how many fractional digits that expansion has. -/
def fracDigits (d : ℕ) : Option ℕ :=
  (List.range 21).find? (fun k => decide (d ∣ 10 ^ k))

/-- The decimal rendering of a rational with a power-of-ten-friendly
denominator (the value class that amounts entered through the form have). -/
def decimalString (q : ℚ) : String :=
  match fracDigits q.den with
  | some 0 => toString q.num
  | some (k + 1) =>
      let scaled := (q.num * (10 : ℤ) ^ (k + 1) / (q.den : ℤ)).natAbs
      let digits := Nat.toDigits 10 scaled
      let padded := List.replicate (k + 2 - digits.length) '0' ++ digits
      let intPart := padded.take (padded.length - (k + 1))
      let fracPart := padded.drop (padded.length - (k + 1))
      (if q.num < 0 then "-" else "") ++ String.mk intPart ++ "." ++ String.mk fracPart
  | none => toString q.num ++ "e" ++ toString q.den

/-- One CSV data row (lines 133-140): date, localized type label, quoted
description, category, amount with decimal comma, quoted `'; '`-joined tags,
joined with commas.  `render` abstracts `Number.prototype.toString`. -/
def csvRow (render : ℚ → String) (t : Transaction) : String :=
  joinSep "," [t.date, typeLabel t.type, quoteField t.description, t.category,
    decimalComma (render t.amount), quoteField (joinSep "; " t.tags)]

/-- The header row `['Data', 'Tipo', 'Descrição', 'Categoria', 'Valor', 'Tags'].join(',')`
(line 132). -/
def csvHeaderRow : String :=
  joinSep "," ["Data", "Tipo", "Descrição", "Categoria", "Valor", "Tags"]

/-- `csvContent` (lines 131-141): header and data rows joined with newlines. -/
def toCsv (render : ℚ → String) (ts : List Transaction) : String :=
  joinSep "\n" (csvHeaderRow :: ts.map (csvRow render))

/-- The first row of a CSV text: its characters up to the first newline. -/
def firstLine (s : String) : String :=
  String.mk (s.data.takeWhile fun c => !(c == '\n'))

/-! ### Re-parsing a row by the documented quoting rule -/

/-- Prepend a character to the first field of a split result. -/
def prependHead (c : Char) : List (List Char) → List (List Char)
  | [] => [[c]]
  | f :: fs => (c :: f) :: fs

/-- Prepend a whole segment to the first field of a split result. -/
def prependField (cs : List Char) : List (List Char) → List (List Char)
  | [] => [cs]
  | f :: fs => (cs ++ f) :: fs

/-- Split a row into fields: commas outside double quotes separate fields,
double quotes toggle the in-quotes state and are dropped. -/
def fieldsOf : Bool → List Char → List (List Char)
  | _, [] => [[]]
  | q, c :: cs =>
      if c = dq then fieldsOf (!q) cs
      else if c = ',' ∧ q = false then [] :: fieldsOf false cs
      else prependHead c (fieldsOf q cs)

/-- Parse one CSV row by the documented quoting rule. -/
def parseRow (s : String) : List String :=
  (fieldsOf false s.data).map String.mk

/-- Does the character list contain the two-character tag separator `'; '`? -/
def hasSepB : List Char → Bool
  | [] => false
  | [_] => false
  | c :: c2 :: cs2 => (c == ';' && c2 == ' ') || hasSepB (c2 :: cs2)

/-- Split a tags field on each `'; '` occurrence (leftmost first). -/
def splitTagsAux : List Char → List (List Char)
  | [] => [[]]
  | [c] => [[c]]
  | c :: c2 :: cs2 =>
      if c = ';' ∧ c2 = ' ' then [] :: splitTagsAux cs2
      else prependHead c (splitTagsAux (c2 :: cs2))

/-- Recover the tag list from the tags field: an empty field is the empty
tag list, otherwise split on `'; '`. -/
def splitTags (s : String) : List String :=
  if s.data = [] then [] else (splitTagsAux s.data).map String.mk

/-! ### CSV lemmas -/

theorem mk_data (s : String) : String.mk s.data = s :=
  rfl

theorem takeWhile_all (p : Char → Bool) (l : List Char) (h : ∀ c ∈ l, p c = true) :
    l.takeWhile p = l := by
  induction l with
  | nil => rfl
  | cons a l ih =>
      rw [List.takeWhile_cons, h a (by simp)]
      simp [ih fun c hc => h c (by simp [hc])]

theorem takeWhile_all_append (p : Char → Bool) (l₁ : List Char) (x : Char) (l₂ : List Char)
    (h : ∀ c ∈ l₁, p c = true) (hx : p x = false) :
    (l₁ ++ x :: l₂).takeWhile p = l₁ := by
  induction l₁ with
  | nil => simp [List.takeWhile_cons, hx]
  | cons a l ih =>
      rw [List.cons_append, List.takeWhile_cons, h a (by simp)]
      simp [ih fun c hc => h c (by simp [hc])]

/-- The shape of one rendered CSV row at the character level. -/
theorem csvRow_data (render : ℚ → String) (t : Transaction) :
    (csvRow render t).data
      = t.date.data ++ ',' :: (typeLabel t.type).data
        ++ ',' :: dq :: t.description.data ++ dq :: ',' :: t.category.data
        ++ ',' :: (decimalComma (render t.amount)).data
        ++ ',' :: dq :: (joinSep "; " t.tags).data ++ [dq] := by
  have hcomma : ("," : String).data = [','] := rfl
  have hdq : dqStr.data = [dq] := rfl
  simp [csvRow, joinSep, quoteField, String.data_append, hcomma, hdq]

theorem decimalCommaAux_of_not_mem (s : List Char) (h : '.' ∉ s) :
    decimalCommaAux s = s := by
  induction s with
  | nil => rfl
  | cons c cs ih =>
      rw [decimalCommaAux, if_neg (by simp at h; exact fun hc => h.1 hc.symm)]
      rw [ih (by simp at h; exact h.2)]

theorem decimalCommaAux_append (pre post : List Char) (h : '.' ∉ pre) :
    decimalCommaAux (pre ++ '.' :: post) = pre ++ ',' :: post := by
  induction pre with
  | nil => simp [decimalCommaAux]
  | cons c cs ih =>
      simp only [List.mem_cons, not_or] at h
      rw [List.cons_append, decimalCommaAux, if_neg (fun hc => h.1 hc.symm),
        ih h.2, List.cons_append]

theorem firstLine_toCsv (render : ℚ → String) (ts : List Transaction) :
    firstLine (toCsv render ts) = "Data,Tipo,Descrição,Categoria,Valor,Tags" := by
  have hhdr : ∀ c ∈ csvHeaderRow.data, (!(c == '\n')) = true := by decide
  cases ts with
  | nil =>
      rw [toCsv, List.map_nil, joinSep, firstLine, takeWhile_all _ _ hhdr, mk_data]
      decide
  | cons t ts' =>
      rw [toCsv, List.map_cons, joinSep, firstLine]
      rw [show (csvHeaderRow ++ "\n" ++ joinSep "\n" (csvRow render t :: ts'.map (csvRow render))).data
            = csvHeaderRow.data ++ '\n'
              :: (joinSep "\n" (csvRow render t :: ts'.map (csvRow render))).data by
        simp [String.data_append]]
      rw [takeWhile_all_append _ _ _ _ hhdr (by decide), mk_data]
      decide

/-- C6, counterexample: the first row of `toCsv` is the Portuguese header
`Data,Tipo,Descrição,Categoria,Valor,Tags`, not the claimed
`Date,Type,Description,Category,Amount,Tags`. -/
theorem C6_counterexample :
    firstLine (toCsv decimalString []) = "Data,Tipo,Descrição,Categoria,Valor,Tags"
    ∧ firstLine (toCsv decimalString [])
        ≠ "Date,Type,Description,Category,Amount,Tags" := by
  refine ⟨firstLine_toCsv decimalString [], ?_⟩
  rw [firstLine_toCsv decimalString []]
  decide

/-- C6, amended: the first row of `toCsv(transactions)` is exactly
`Data,Tipo,Descrição,Categoria,Valor,Tags`; in every data row the
description and tags fields are always wrapped in double quotes (whether or
not they contain the separator) while date, type, category and amount are
never quoted; and the amount is rendered with its first `.` replaced by a
comma (an unquoted decimal comma). -/
theorem C6_toCsv_amended (render : ℚ → String) (ts : List Transaction) :
    firstLine (toCsv render ts) = "Data,Tipo,Descrição,Categoria,Valor,Tags"
    ∧ (∀ t : Transaction, (csvRow render t).data
        = t.date.data ++ ',' :: (typeLabel t.type).data
          ++ ',' :: dq :: t.description.data ++ dq :: ',' :: t.category.data
          ++ ',' :: (decimalComma (render t.amount)).data
          ++ ',' :: dq :: (joinSep "; " t.tags).data ++ [dq])
    ∧ (∀ pre post : List Char, '.' ∉ pre →
        decimalCommaAux (pre ++ '.' :: post) = pre ++ ',' :: post)
    ∧ (∀ s : List Char, '.' ∉ s → decimalCommaAux s = s) :=
  ⟨firstLine_toCsv render ts, csvRow_data render, decimalCommaAux_append,
    decimalCommaAux_of_not_mem⟩

/-- Witness for `C6_toCsv_amended` at concrete inputs. -/
theorem C6_toCsv_amended_witness :
    firstLine (toCsv decimalString [])
        = "Data,Tipo,Descrição,Categoria,Valor,Tags"
    ∧ decimalCommaAux ['1', '0', '.', '5'] = ['1', '0', ',', '5'] :=
  ⟨(C6_toCsv_amended decimalString []).1,
    (C6_toCsv_amended decimalString []).2.2.1 ['1', '0'] ['5'] (by decide)⟩

/-! ### Row-parsing lemmas for the round-trip claim -/

theorem fieldsOf_ne_nil (q : Bool) (l : List Char) : fieldsOf q l ≠ [] := by
  induction l generalizing q with
  | nil => simp [fieldsOf]
  | cons c cs ih =>
      rw [fieldsOf]
      split
      · exact ih _
      · split
        · simp
        · unfold prependHead
          split <;> simp

theorem prependField_cons (c : Char) (cs : List Char) (r : List (List Char)) :
    prependField (c :: cs) r = prependHead c (prependField cs r) := by
  cases r <;> rfl

theorem fieldsOf_dq (q : Bool) (rest : List Char) :
    fieldsOf q (dq :: rest) = fieldsOf (!q) rest := by
  rw [fieldsOf, if_pos rfl]

theorem fieldsOf_comma (rest : List Char) :
    fieldsOf false (',' :: rest) = [] :: fieldsOf false rest := by
  rw [fieldsOf, if_neg (by decide), if_pos ⟨rfl, rfl⟩]

theorem fieldsOf_plain (q : Bool) (c : Char) (rest : List Char) (hdq : ¬ c = dq)
    (hcomma : ¬ (c = ',' ∧ q = false)) :
    fieldsOf q (c :: rest) = prependHead c (fieldsOf q rest) := by
  rw [fieldsOf, if_neg hdq, if_neg hcomma]

theorem fieldsOf_false_append (cs rest : List Char)
    (h : ∀ c ∈ cs, ¬ c = dq ∧ ¬ c = ',') :
    fieldsOf false (cs ++ rest) = prependField cs (fieldsOf false rest) := by
  induction cs with
  | nil =>
      rw [List.nil_append]
      cases hF : fieldsOf false rest with
      | nil => exact absurd hF (fieldsOf_ne_nil false rest)
      | cons f fs => simp [prependField]
  | cons c cs ih =>
      have hc := h c (by simp)
      rw [List.cons_append,
        fieldsOf_plain false c (cs ++ rest) hc.1 (fun hp => hc.2 hp.1),
        ih fun x hx => h x (by simp [hx]), prependField_cons]

theorem fieldsOf_true_append (cs rest : List Char) (h : ∀ c ∈ cs, ¬ c = dq) :
    fieldsOf true (cs ++ rest) = prependField cs (fieldsOf true rest) := by
  induction cs with
  | nil =>
      rw [List.nil_append]
      cases hF : fieldsOf true rest with
      | nil => exact absurd hF (fieldsOf_ne_nil true rest)
      | cons f fs => simp [prependField]
  | cons c cs ih =>
      rw [List.cons_append,
        fieldsOf_plain true c (cs ++ rest) (h c (by simp)) (by simp),
        ih fun x hx => h x (by simp [hx]), prependField_cons]

theorem prependField_new (cs : List Char) (F : List (List Char)) :
    prependField cs ([] :: F) = cs :: F := by
  simp [prependField]

/-! ### Tag-splitting lemmas -/

theorem hasSepB_cons_false {c c2 : Char} {cs2 : List Char}
    (h : hasSepB (c :: c2 :: cs2) = false) :
    ¬ (c = ';' ∧ c2 = ' ') ∧ hasSepB (c2 :: cs2) = false := by
  rw [hasSepB] at h
  simp only [Bool.or_eq_false_iff, Bool.and_eq_false_iff, beq_eq_false_iff_ne] at h
  refine ⟨?_, h.2⟩
  rintro ⟨rfl, rfl⟩
  rcases h.1 with h1 | h1 <;> exact h1 rfl

theorem splitTagsAux_last : ∀ cs : List Char, hasSepB cs = false → splitTagsAux cs = [cs]
  | [], _ => rfl
  | [_], _ => rfl
  | c :: c2 :: cs2, h => by
      obtain ⟨hcc, htail⟩ := hasSepB_cons_false h
      rw [splitTagsAux, if_neg hcc, splitTagsAux_last (c2 :: cs2) htail]
      rfl

theorem splitTagsAux_tag :
    ∀ cs more : List Char, hasSepB cs = false →
      splitTagsAux (cs ++ ';' :: ' ' :: more) = cs :: splitTagsAux more
  | [], more, _ => by
      rw [List.nil_append, splitTagsAux, if_pos ⟨rfl, rfl⟩]
  | [c], more, _ => by
      rw [List.cons_append, List.nil_append, splitTagsAux,
        if_neg (by rintro ⟨-, h⟩; exact absurd h (by decide)), splitTagsAux,
        if_pos ⟨rfl, rfl⟩]
      rfl
  | c :: c2 :: cs2, more, h => by
      obtain ⟨hcc, htail⟩ := hasSepB_cons_false h
      rw [List.cons_append, List.cons_append, splitTagsAux, if_neg hcc,
        ← List.cons_append, splitTagsAux_tag (c2 :: cs2) more htail]
      rfl

theorem joinSep_tags_data (t t2 : String) (ts : List String) :
    (joinSep "; " (t :: t2 :: ts)).data
      = t.data ++ ';' :: ' ' :: (joinSep "; " (t2 :: ts)).data := by
  rw [joinSep]
  simp [String.data_append]

theorem joinSep_head_data (x : String) (xs : List String) :
    ∃ suffix : List Char, (joinSep "; " (x :: xs)).data = x.data ++ suffix := by
  cases xs with
  | nil => exact ⟨[], by simp [joinSep]⟩
  | cons y ys => exact ⟨';' :: ' ' :: (joinSep "; " (y :: ys)).data, joinSep_tags_data x y ys⟩

theorem splitTags_joinSep :
    ∀ tags : List String, (∀ tag ∈ tags, tag.data ≠ [] ∧ hasSepB tag.data = false) →
      splitTags (joinSep "; " tags) = tags
  | [], _ => rfl
  | [t], h => by
      obtain ⟨hne, hsep⟩ := h t (by simp)
      rw [joinSep, splitTags, if_neg hne, splitTagsAux_last t.data hsep]
      simp [mk_data]
  | t :: t2 :: ts, h => by
      obtain ⟨hne, hsep⟩ := h t (by simp)
      have hrest := splitTags_joinSep (t2 :: ts) fun tag htag => h tag (by simp [htag])
      obtain ⟨hne2, _⟩ := h t2 (by simp)
      obtain ⟨suffix, hsuffix⟩ := joinSep_head_data t2 ts
      have hne2' : (joinSep "; " (t2 :: ts)).data ≠ [] := by
        rw [hsuffix]
        intro hcontra
        exact hne2 (List.append_eq_nil.mp hcontra).1
      rw [splitTags, if_neg hne2'] at hrest
      rw [splitTags, joinSep_tags_data,
        if_neg (by intro hcontra; exact hne (List.append_eq_nil.mp hcontra).1),
        splitTagsAux_tag t.data _ hsep]
      rw [List.map_cons, mk_data, hrest]

theorem fieldsOf_nil (q : Bool) : fieldsOf q [] = [[]] :=
  rfl

theorem fieldsOf_dq_false (rest : List Char) :
    fieldsOf false (dq :: rest) = fieldsOf true rest :=
  fieldsOf_dq false rest

theorem fieldsOf_dq_true (rest : List Char) :
    fieldsOf true (dq :: rest) = fieldsOf false rest :=
  fieldsOf_dq true rest

theorem joinSep_tags_no_dq :
    ∀ tags : List String, (∀ tag ∈ tags, ∀ c ∈ tag.data, ¬ c = dq) →
      ∀ c ∈ (joinSep "; " tags).data, ¬ c = dq
  | [], _ => by intro c hc; simp [joinSep] at hc
  | [t], h => by
      intro c hc
      rw [joinSep] at hc
      exact h t (by simp) c hc
  | t :: t2 :: ts, h => by
      intro c hc
      rw [joinSep_tags_data] at hc
      rcases List.mem_append.mp hc with hc | hc
      · exact h t (by simp) c hc
      · simp only [List.mem_cons] at hc
        rcases hc with rfl | rfl | hc
        · decide
        · decide
        · exact joinSep_tags_no_dq (t2 :: ts) (fun tag htag => h tag (by simp [htag])) c hc

/-- C7, amended: parsing a `toCsv` data row by the documented quoting rule
recovers the date, the type label, the description, the category, the
rendered amount, and (splitting on the tag separator) the tags — provided
the description contains no double quote, the date, category and rendered
amount contain no double quote or comma and the amount's rendering contains
no decimal point (integer amounts; a fractional amount is written with an
unquoted decimal comma and breaks field alignment), and every tag is
nonempty, quote-free and does not contain the separator `'; '`. -/
theorem C7_roundtrip_amended (render : ℚ → String) (t : Transaction)
    (hdate : ∀ c ∈ t.date.data, ¬ c = dq ∧ ¬ c = ',')
    (hcat : ∀ c ∈ t.category.data, ¬ c = dq ∧ ¬ c = ',')
    (hamt : ∀ c ∈ (render t.amount).data, ¬ c = dq ∧ ¬ c = ',' ∧ ¬ c = '.')
    (hdesc : ∀ c ∈ t.description.data, ¬ c = dq)
    (htags : ∀ tag ∈ t.tags,
      tag.data ≠ [] ∧ hasSepB tag.data = false ∧ ∀ c ∈ tag.data, ¬ c = dq) :
    parseRow (csvRow render t)
      = [t.date, typeLabel t.type, t.description, t.category, render t.amount,
          joinSep "; " t.tags]
    ∧ splitTags (joinSep "; " t.tags) = t.tags := by
  have hdecimal : decimalComma (render t.amount) = render t.amount := by
    rw [decimalComma,
      decimalCommaAux_of_not_mem _ (fun hmem => (hamt '.' hmem).2.2 rfl), mk_data]
  have hlabel : ∀ c ∈ (typeLabel t.type).data, ¬ c = dq ∧ ¬ c = ',' := by
    cases t.type <;> decide
  have hamt' : ∀ c ∈ (render t.amount).data, ¬ c = dq ∧ ¬ c = ',' :=
    fun c hc => ⟨(hamt c hc).1, (hamt c hc).2.1⟩
  have htagsJ : ∀ c ∈ (joinSep "; " t.tags).data, ¬ c = dq :=
    joinSep_tags_no_dq t.tags fun tag htag => (htags tag htag).2.2
  constructor
  · rw [parseRow, csvRow_data, hdecimal]
    simp only [List.append_assoc, List.cons_append]
    rw [fieldsOf_false_append _ _ hdate, fieldsOf_comma, prependField_new]
    rw [fieldsOf_false_append _ _ hlabel, fieldsOf_comma, prependField_new]
    rw [fieldsOf_dq_false]
    rw [fieldsOf_true_append _ _ hdesc, fieldsOf_dq_true, fieldsOf_comma, prependField_new]
    rw [fieldsOf_false_append _ _ hcat, fieldsOf_comma, prependField_new]
    rw [fieldsOf_false_append _ _ hamt', fieldsOf_comma, prependField_new]
    rw [fieldsOf_dq_false]
    rw [fieldsOf_true_append _ _ htagsJ, fieldsOf_dq_true, fieldsOf_nil, prependField_new]
    simp [mk_data]
  · exact splitTags_joinSep t.tags fun tag htag =>
      ⟨(htags tag htag).1, (htags tag htag).2.1⟩

/-- A concrete transaction with an integer amount and well-formed fields. -/
def c7w : Transaction :=
  { id := "9", type := TxType.income, amount := 42, description := "Sal", category := "S",
    date := "2025-01-02", tags := ["t1", "t2"] }

/-- Witness for `C7_roundtrip_amended` at a concrete transaction. -/
theorem C7_roundtrip_amended_witness :
    parseRow (csvRow decimalString c7w)
      = [c7w.date, typeLabel c7w.type, c7w.description, c7w.category,
          decimalString c7w.amount, joinSep "; " c7w.tags]
    ∧ splitTags (joinSep "; " c7w.tags) = c7w.tags :=
  C7_roundtrip_amended decimalString c7w (by decide) (by decide) (by decide) (by decide)
    (by decide)

/-- A concrete transaction with the fractional amount 10.5. -/
def c7cex : Transaction :=
  { id := "7", type := TxType.expense, amount := mkRat 21 2, description := "d",
    category := "Cat", date := "2025-01-01", tags := [] }

/-- C7, counterexample: for the amount 10.5 the rendered row reads
`2025-01-01,Despesa,"d",Cat,10,5,""` — the unquoted decimal comma splits the
amount into two fields, so re-parsing by the quoting rule does not recover
the amount. -/
theorem C7_counterexample :
    parseRow (csvRow decimalString c7cex)
      = ["2025-01-01", "Despesa", "d", "Cat", "10", "5", ""]
    ∧ parseRow (csvRow decimalString c7cex)
      ≠ [c7cex.date, typeLabel c7cex.type, c7cex.description, c7cex.category,
          decimalString c7cex.amount, joinSep "; " c7cex.tags] := by
  constructor <;> decide

/-! ## File-attachment upload gate (src/unnamed/part_001, `handleFileUpload`,
lines 72-97)

The handler reads `event.target.files?.[0]`; on a disallowed MIME type or an
oversized file it records a per-field error message in `errors.attachment`
and returns (nothing is thrown); otherwise it stores the attachment and
clears the error.  It never touches the transaction collection: the store is
only modified by `onAddTransaction` on submit. -/

/-- The component state the upload handler can see: the pending attachment,
the per-field error message, and the Transaction Store. -/
structure UploadState where
  attachment : Option FileDesc
  attachmentError : String
  store : List Transaction
deriving DecidableEq, Repr

/-- `const allowedTypes = ['image/jpeg', 'image/png', 'image/webp', 'application/pdf']`. -/
def allowedTypes : List String :=
  ["image/jpeg", "image/png", "image/webp", "application/pdf"]

/-- `handleFileUpload` (part_001 lines 72-97). -/
def handleFileUpload (file : Option FileDesc) (s : UploadState) : UploadState :=
  match file with
  | none => s
  | some f =>
      if f.type ∉ allowedTypes then
        { s with attachmentError := "Apenas arquivos JPG, PNG, WEBP e PDF são permitidos" }
      else if 5 * 1024 * 1024 < f.size then
        { s with attachmentError := "Arquivo deve ter no máximo 5MB" }
      else
        { s with attachment := some f, attachmentError := "" }

/-- C9: the upload is a size/type gate with error atomicity: a file whose
MIME type is outside {image/jpeg, image/png, image/webp, application/pdf} is
rejected with a per-field error message and no state change besides that
message; a file over 5 MiB is likewise rejected on size; an allowed file of
at most 5 MiB is accepted; and in every case the handler is a total function
(nothing is thrown) that leaves the Transaction Store unchanged. -/
theorem C9_upload_gate (s : UploadState) (f : FileDesc) :
    (f.type ∉ allowedTypes →
      handleFileUpload (some f) s
        = { s with attachmentError := "Apenas arquivos JPG, PNG, WEBP e PDF são permitidos" })
    ∧ (f.type ∈ allowedTypes → 5 * 1024 * 1024 < f.size →
      handleFileUpload (some f) s = { s with attachmentError := "Arquivo deve ter no máximo 5MB" })
    ∧ (f.type ∈ allowedTypes → f.size ≤ 5 * 1024 * 1024 →
      handleFileUpload (some f) s = { s with attachment := some f, attachmentError := "" })
    ∧ (handleFileUpload (some f) s).store = s.store
    ∧ (handleFileUpload none s).store = s.store := by
  refine ⟨?_, ?_, ?_, ?_, rfl⟩
  · intro h
    rw [handleFileUpload, if_pos h]
  · intro h hsize
    rw [handleFileUpload, if_neg (by simpa using h), if_pos hsize]
  · intro h hsize
    rw [handleFileUpload, if_neg (by simpa using h), if_neg (by omega)]
  · rw [handleFileUpload]
    split
    · rfl
    · split
      · rfl
      · rfl

/-- A 1000-byte zip upload. -/
def zipFile : FileDesc := { name := "m.zip", size := 1000, type := "application/zip" }

/-- A 6 MiB PDF upload. -/
def bigPdf : FileDesc := { name := "b.pdf", size := 6 * 1024 * 1024, type := "application/pdf" }

/-- A 1 KiB JPEG upload. -/
def smallJpeg : FileDesc := { name := "s.jpg", size := 1024, type := "image/jpeg" }

/-- The form state before an upload, with a store holding one transaction. -/
def uploadState0 : UploadState :=
  { attachment := none, attachmentError := "",
    store := [{ id := "1", type := TxType.income, amount := 5, description := "a",
                category := "Outros", date := "2025-01-01", tags := [] }] }

/-- Witness for `C9_upload_gate`: the `application/zip` upload is rejected on
type, the 6 MiB PDF on size, and the 1 KiB JPEG is accepted; the store is
unchanged in each case. -/
theorem C9_upload_gate_witness :
    handleFileUpload (some zipFile) uploadState0
      = { uploadState0 with
          attachmentError := "Apenas arquivos JPG, PNG, WEBP e PDF são permitidos" }
    ∧ handleFileUpload (some bigPdf) uploadState0
      = { uploadState0 with attachmentError := "Arquivo deve ter no máximo 5MB" }
    ∧ handleFileUpload (some smallJpeg) uploadState0
      = { uploadState0 with attachment := some smallJpeg, attachmentError := "" }
    ∧ (handleFileUpload (some zipFile) uploadState0).store = uploadState0.store :=
  ⟨(C9_upload_gate uploadState0 zipFile).1 (by decide),
    (C9_upload_gate uploadState0 bigPdf).2.1 (by decide) (by decide),
    (C9_upload_gate uploadState0 smallJpeg).2.2.1 (by decide) (by decide),
    (C9_upload_gate uploadState0 zipFile).2.2.2.1⟩

/-! ## Form input sanitization (src/unnamed/part_001, `sanitizeInput` lines
35-42, `handleInputChange` lines 44-52, `addTag` lines 54-63,
`handleSubmit` lines 131-154) -/

/-- Global single-character replacement, the effect of
`input.replace(/c/g, r)` for a one-character pattern. -/
def charReplace (c : Char) (r : List Char) : List Char → List Char
  | [] => []
  | x :: xs => (if x = c then r else [x]) ++ charReplace c r xs

/-- `sanitizeInput` (part_001 lines 35-42): the chained replacements
`<`→`<`, `>`→`>` (both identity as written in the source), `"`→`&quot;`,
`'`→`&#x27;`, `/`→`&#x2F;`. -/
def sanitizeInput (s : String) : String :=
  String.mk
    (charReplace '/' "&#x2F;".data
      (charReplace (Char.ofNat 39) "&#x27;".data
        (charReplace dq "&quot;".data
          (charReplace '>' ">".data
            (charReplace '<' "<".data s.data)))))

/-- JS `String.prototype.trim`: drop whitespace from both ends. -/
def trimStr (s : String) : String :=
  String.mk (((s.data.dropWhile Char.isWhitespace).reverse.dropWhile Char.isWhitespace).reverse)

/-- One step of `addTag` (part_001 lines 54-63): append the sanitized
trimmed tag if the raw trimmed tag is nonempty and not already present. -/
def addTag (raw : String) (tags : List String) : List String :=
  if trimStr raw ≠ "" ∧ trimStr raw ∉ tags then tags ++ [sanitizeInput (trimStr raw)] else tags

/-- The tag list built by a sequence of `addTag` clicks. -/
def formTags (raws : List String) : List String :=
  raws.foldl (fun tags raw => addTag raw tags) []

/-- The transaction built by `handleSubmit` (part_001 lines 142-152) from
the form state: every text field reached the state through
`handleInputChange`, which applies `sanitizeInput` to the raw input value,
and the tags through `addTag`. -/
def mkFormTransaction (id : String) (ty : TxType) (amount : ℚ) (rawDescription : String)
    (rawCategory : String) (rawDate : String) (rawTags : List String)
    (att : Option FileDesc) : Transaction :=
  { id := id, type := ty, amount := amount,
    description := sanitizeInput rawDescription,
    category := sanitizeInput rawCategory,
    date := sanitizeInput rawDate,
    tags := formTags rawTags,
    attachment := att }

theorem not_mem_charReplace_self (c : Char) (r : List Char) (s : List Char) (hr : c ∉ r) :
    c ∉ charReplace c r s := by
  induction s with
  | nil => simp [charReplace]
  | cons x xs ih =>
      rw [charReplace]
      intro hmem
      rcases List.mem_append.mp hmem with hmem | hmem
      · by_cases hx : x = c
        · rw [if_pos hx] at hmem; exact hr hmem
        · rw [if_neg hx] at hmem; simp at hmem; exact hx (hmem ▸ rfl)
      · exact ih hmem

theorem not_mem_charReplace_other (c c' : Char) (r : List Char) (s : List Char)
    (hs : c ∉ s) (hr : c ∉ r) : c ∉ charReplace c' r s := by
  induction s with
  | nil => simp [charReplace]
  | cons x xs ih =>
      simp only [List.mem_cons, not_or] at hs
      rw [charReplace]
      intro hmem
      rcases List.mem_append.mp hmem with hmem | hmem
      · by_cases hx : x = c'
        · rw [if_pos hx] at hmem; exact hr hmem
        · rw [if_neg hx] at hmem; simp at hmem; exact hs.1 (hmem ▸ rfl)
      · exact ih hs.2 hmem

theorem charReplace_id (c : Char) (s : List Char) : charReplace c [c] s = s := by
  induction s with
  | nil => rfl
  | cons x xs ih =>
      rw [charReplace, ih]
      by_cases hx : x = c
      · rw [if_pos hx, hx]; rfl
      · rw [if_neg hx]; rfl

theorem charReplace_of_not_mem (c : Char) (r s : List Char) (h : c ∉ s) :
    charReplace c r s = s := by
  induction s with
  | nil => rfl
  | cons x xs ih =>
      simp only [List.mem_cons, not_or] at h
      rw [charReplace, if_neg (fun hx => h.1 hx.symm), ih h.2]
      rfl

/-- A string is clean when it contains no literal double quote, single quote
or forward slash. -/
def cleanStr (s : String) : Prop :=
  dq ∉ s.data ∧ Char.ofNat 39 ∉ s.data ∧ '/' ∉ s.data

theorem sanitizeInput_clean (s : String) : cleanStr (sanitizeInput s) := by
  refine ⟨?_, ?_, ?_⟩
  · apply not_mem_charReplace_other
    · apply not_mem_charReplace_other
      · exact not_mem_charReplace_self _ _ _ (by decide)
      · decide
    · decide
  · apply not_mem_charReplace_other
    · exact not_mem_charReplace_self _ _ _ (by decide)
    · decide
  · exact not_mem_charReplace_self _ _ _ (by decide)

theorem formTags_clean (raws : List String) : ∀ tag ∈ formTags raws, cleanStr tag := by
  suffices h : ∀ acc : List String, (∀ tag ∈ acc, cleanStr tag) →
      ∀ tag ∈ raws.foldl (fun tags raw => addTag raw tags) acc, cleanStr tag by
    exact h [] (by simp)
  induction raws with
  | nil => intro acc hacc; exact hacc
  | cons raw raws ih =>
      intro acc hacc
      refine ih (addTag raw acc) ?_
      intro tag htag
      rw [addTag] at htag
      split at htag
      · rcases List.mem_append.mp htag with htag | htag
        · exact hacc tag htag
        · simp at htag
          exact htag ▸ sanitizeInput_clean _
      · exact hacc tag htag

/-- C10: every transaction created through the Transaction Form has its
description and every tag passed through `sanitizeInput`, which replaces
`"`, `'` and `/` by the entities `&quot;`, `&#x27;` and `&#x2F;`; hence no
form-created transaction contains a literal `"`, `'` or `/` in its
description or tags.  The source's replacements for `<` and `>` are identity
mappings, so a string free of the three replaced characters is left
unchanged entirely. -/
theorem C10_sanitization_invariant (id : String) (ty : TxType) (amount : ℚ)
    (rawDescription rawCategory rawDate : String) (rawTags : List String)
    (att : Option FileDesc) :
    cleanStr (mkFormTransaction id ty amount rawDescription rawCategory rawDate
        rawTags att).description
    ∧ (∀ tag ∈ (mkFormTransaction id ty amount rawDescription rawCategory rawDate
        rawTags att).tags, cleanStr tag)
    ∧ (∀ l : List Char, charReplace '<' "<".data l = l ∧ charReplace '>' ">".data l = l)
    ∧ (∀ s : String, cleanStr s → sanitizeInput s = s) := by
  refine ⟨sanitizeInput_clean rawDescription, formTags_clean rawTags, ?_, ?_⟩
  · intro l
    exact ⟨charReplace_id '<' l, charReplace_id '>' l⟩
  · intro s hs
    obtain ⟨h1, h2, h3⟩ := hs
    have hlt : ("<" : String).data = ['<'] := rfl
    have hgt : (">" : String).data = ['>'] := rfl
    rw [sanitizeInput, hlt, hgt, charReplace_id, charReplace_id,
      charReplace_of_not_mem _ _ _ h1, charReplace_of_not_mem _ _ _ h2,
      charReplace_of_not_mem _ _ _ h3, mk_data]

/-- Witness for `C10_sanitization_invariant` at a concrete form submission. -/
theorem C10_sanitization_invariant_witness :
    cleanStr (mkFormTransaction "1" TxType.expense 5 "a/b" "Outros" "2025-01-01"
        ["x/y"] none).description
    ∧ cleanStr (sanitizeInput (trimStr "x/y"))
    ∧ charReplace '<' "<".data ['<', 'a'] = ['<', 'a']
    ∧ sanitizeInput "abc" = "abc" :=
  ⟨(C10_sanitization_invariant "1" TxType.expense 5 "a/b" "Outros" "2025-01-01"
      ["x/y"] none).1,
   (C10_sanitization_invariant "1" TxType.expense 5 "a/b" "Outros" "2025-01-01"
      ["x/y"] none).2.1 (sanitizeInput (trimStr "x/y")) (by decide),
   ((C10_sanitization_invariant "1" TxType.expense 5 "a/b" "Outros" "2025-01-01"
      ["x/y"] none).2.2.1 ['<', 'a']).1,
   (C10_sanitization_invariant "1" TxType.expense 5 "a/b" "Outros" "2025-01-01"
      ["x/y"] none).2.2.2 "abc" ⟨by decide, by decide, by decide⟩⟩

end SecureFinance
